import Mathlib

/-!
Verification of the `Arena` ray-casting kernel from `arena.py`
(martinosorb/vision-arena): ray fan generation, ray–circle intersection,
angle normalization, color sampling, and the pose/visual-field state machine.

Real-number shallow embedding: numpy floats become `ℝ`, numpy arrays become
`List ℝ`, the Python exception raised by the position setter becomes `Option`
(`none` models the raised `ValueError`, leaving the original arena untouched,
exactly as the Python `raise` occurs before any field assignment).
-/

namespace VisionArena

noncomputable section

open Real

/-- Numpy `np.sign`: `-1` for negatives, `0` at zero, `1` for positives. -/
def npSign (x : ℝ) : ℝ :=
  if x < 0 then -1 else if x = 0 then 0 else 1

/-- Numpy `np.linspace(start, stop, num)` with the default inclusive endpoint:
`num` evenly spaced samples from `start` to `stop`; for `num = 1` numpy
returns just `[start]`. -/
def linspace (start stop : ℝ) (num : ℕ) : List ℝ :=
  if num = 1 then [start]
  else (List.range num).map fun i : ℕ =>
    start + (i : ℝ) * (stop - start) / ((num : ℝ) - 1)

/-- The Python `%` on reals with a positive modulus: `a - m * ⌊a / m⌋`
(the representative in `[0, m)` for `m > 0`). -/
def pymod (a m : ℝ) : ℝ := a - m * (⌊a / m⌋ : ℤ)

/-- The `Arena` object state: the injected wall color function, the two
construction-time parameters, the pose (`_pos`, `_phi`) and the three cached
visual-field sequences set by `update_vf`. -/
structure Arena (Color : Type) where
  colorfunc : List ℝ → List Color
  visual_breadth : ℝ
  visual_res : ℕ
  pos : ℝ × ℝ
  phi : ℝ
  vf_xy : List (ℝ × ℝ)
  vf_angles : List ℝ
  vf_colors : List Color

/-- Method `Arena._get_rays`: `self._phi + np.linspace(-b, b, n)` (elementwise add). -/
def get_rays {Color : Type} (a : Arena Color) : List ℝ :=
  (linspace (-a.visual_breadth) a.visual_breadth a.visual_res).map
    fun t => a.phi + t

/-- Method `Arena._get_circle_intersection(ray)`, reading `(x0, y0) = self._pos`.
The Python guard is `np.abs(np.tan(ray)) > 1e10`; in IEEE floats `tan` at an
argument whose cosine rounds to `0` overflows far past the threshold, while
`Real.tan` in Lean is `sin/cos` with division by zero collapsing to `0`, so
the faithful real-number reading of the guard also fires when `cos ray = 0`. -/
def get_circle_intersection (pos : ℝ × ℝ) (ray : ℝ) : ℝ × ℝ :=
  let x0 := pos.1
  let y0 := pos.2
  let sgn := npSign (Real.cos ray)
  let m := Real.tan ray
  if Real.cos ray = 0 ∨ (1e10 : ℝ) < |m| then
    (x0, npSign (Real.sin ray) * Real.sqrt (1 - x0 ^ 2))
  else
    let A := 1 + m ^ 2
    let Bhalf := m * y0 - m ^ 2 * x0
    let C := y0 ^ 2 - 2 * m * y0 * x0 + m ^ 2 * x0 ^ 2 - 1
    let solX := (-Bhalf + sgn * Real.sqrt (Bhalf ^ 2 - A * C)) / A
    (solX, y0 + m * (solX - x0))

/-- One entry of `np.arctan(inters[:,1]/inters[:,0]) + np.pi*(inters[:,0] < 0)`:
the wall angle of an intersection point, with the `+π` correction when `x < 0`
(the boolean is the numpy 0/1 indicator). -/
def wall_angle (p : ℝ × ℝ) : ℝ :=
  Real.arctan (p.2 / p.1) + Real.pi * (if p.1 < 0 then 1 else 0)

/-- Method `Arena.update_vf`: regenerate the ray fan, intersect each ray with the
unit circle, store the points, store the reversed-and-normalized wall angles,
and sample the color function on them in one batch. -/
def update_vf {Color : Type} (a : Arena Color) : Arena Color :=
  let rays := (linspace (-a.visual_breadth) a.visual_breadth a.visual_res).map
    fun t => a.phi + t
  let inters := rays.map (get_circle_intersection a.pos)
  let angles := (inters.map wall_angle).reverse.map
    fun t => pymod t (2 * Real.pi)
  { a with vf_xy := inters, vf_angles := angles, vf_colors := a.colorfunc angles }

/-- Constructor `Arena.__init__(color_function, visual_breadth, visual_resolution)`:
pose defaults to the origin and angle `0`, then `update_vf` fills the visual
field (the pre-`update_vf` field values are never observable). -/
def Arena.init {Color : Type} (cf : List ℝ → List Color)
    (vb : ℝ) (vr : ℕ) : Arena Color :=
  update_vf
    { colorfunc := cf, visual_breadth := vb, visual_res := vr,
      pos := (0, 0), phi := 0, vf_xy := [], vf_angles := [], vf_colors := [] }

/-- The `pos` setter: raise (`none`) when `x² + y² > 1`, leaving the arena
unreplaced; otherwise commit the new position and rerun `update_vf`. -/
def set_pos {Color : Type} (a : Arena Color) (new_pos : ℝ × ℝ) :
    Option (Arena Color) :=
  if new_pos.1 ^ 2 + new_pos.2 ^ 2 > 1 then none
  else some (update_vf { a with pos := new_pos })

/-- The `phi` setter: store `new_phi % (2π)` and rerun `update_vf`. -/
def set_phi {Color : Type} (a : Arena Color) (new_phi : ℝ) : Arena Color :=
  update_vf { a with phi := pymod new_phi (2 * Real.pi) }

/-- A bare arena record with identity color function, used to instantiate
universally quantified theorems at concrete states. -/
def idArena (vb : ℝ) (vr : ℕ) (p : ℝ × ℝ) (φ : ℝ) : Arena ℝ :=
  { colorfunc := fun l => l, visual_breadth := vb, visual_res := vr,
    pos := p, phi := φ, vf_xy := [], vf_angles := [], vf_colors := [] }

/-- The three cached visual-field sequences all have `visual_res` entries. -/
def vf_sizes_ok {Color : Type} (a : Arena Color) : Prop :=
  a.vf_xy.length = a.visual_res ∧ a.vf_angles.length = a.visual_res ∧
  a.vf_colors.length = a.visual_res

/-! ### Basic lemmas about the embedded operations -/

theorem linspace_length (s e : ℝ) (n : ℕ) : (linspace s e n).length = n := by
  unfold linspace
  by_cases h : n = 1
  · rw [if_pos h, h]
    rfl
  · rw [if_neg h, List.length_map, List.length_range]

theorem update_vf_colorfunc {Color : Type} (a : Arena Color) :
    (update_vf a).colorfunc = a.colorfunc := rfl

theorem update_vf_visual_breadth {Color : Type} (a : Arena Color) :
    (update_vf a).visual_breadth = a.visual_breadth := rfl

theorem update_vf_visual_res {Color : Type} (a : Arena Color) :
    (update_vf a).visual_res = a.visual_res := rfl

theorem update_vf_pos {Color : Type} (a : Arena Color) :
    (update_vf a).pos = a.pos := rfl

theorem update_vf_phi {Color : Type} (a : Arena Color) :
    (update_vf a).phi = a.phi := rfl

/-- Function `update_vf` only reads the color function, breadth, resolution and pose;
its output is entirely determined by them. -/
theorem update_vf_congr {Color : Type} (a b : Arena Color)
    (h1 : a.colorfunc = b.colorfunc) (h2 : a.visual_breadth = b.visual_breadth)
    (h3 : a.visual_res = b.visual_res) (h4 : a.pos = b.pos)
    (h5 : a.phi = b.phi) : update_vf a = update_vf b := by
  cases a
  cases b
  simp only at h1 h2 h3 h4 h5
  subst h1 h2 h3 h4 h5
  simp [update_vf]

theorem pymod_nonneg (a m : ℝ) (hm : 0 < m) : 0 ≤ pymod a m := by
  have h := Int.floor_le (a / m)
  have h2 : m * (⌊a / m⌋ : ℝ) ≤ m * (a / m) := by
    exact mul_le_mul_of_nonneg_left h (le_of_lt hm)
  rw [mul_div_cancel₀ a (ne_of_gt hm)] at h2
  simpa [pymod] using h2

theorem pymod_lt (a m : ℝ) (hm : 0 < m) : pymod a m < m := by
  have h := Int.lt_floor_add_one (a / m)
  have h2 : m * (a / m) < m * ((⌊a / m⌋ : ℝ) + 1) := by
    exact mul_lt_mul_of_pos_left h hm
  rw [mul_div_cancel₀ a (ne_of_gt hm), mul_add, mul_one] at h2
  simp only [pymod]
  linarith

theorem pymod_sub_int (a m : ℝ) : ∃ k : ℤ, pymod a m = a - m * k :=
  ⟨⌊a / m⌋, rfl⟩

/-! ### C3: the ray fan -/

/-- C3 counterexample: with `visual_resolution = 1`, orientation `φ = 0` and
`visual_breadth = 1`, the single generated ray angle is `-1 = φ - b`, not
`φ = 0` as the claim states (numpy `linspace(-b, b, 1)` returns `[-b]`). -/
theorem C3_counterexample :
    get_rays (idArena 1 1 (0, 0) 0) = [(-1 : ℝ)] ∧
    get_rays (idArena 1 1 (0, 0) 0) ≠ [(0 : ℝ)] := by
  have h : get_rays (idArena 1 1 (0, 0) 0) = [(-1 : ℝ)] := by
    simp [get_rays, linspace, idArena]
  refine ⟨h, ?_⟩
  rw [h]
  simp

/-- C3 (amended): for `visual_resolution = n ≥ 2` the ray fan is exactly the
`n` angles `φ - b + i·(2b)/(n-1)` for `i = 0..n-1`, evenly spaced over
`[φ - b, φ + b]` in left-to-right order; when `n = 1` the single ray angle is
`φ - b` (the left edge of the fan, the numpy `linspace` start), not `φ`. -/
theorem C3_ray_fan {Color : Type} (a : Arena Color) :
    (2 ≤ a.visual_res →
      get_rays a = (List.range a.visual_res).map fun i : ℕ =>
        a.phi - a.visual_breadth +
          (i : ℝ) * (2 * a.visual_breadth) / ((a.visual_res : ℝ) - 1)) ∧
    (a.visual_res = 1 → get_rays a = [a.phi - a.visual_breadth]) := by
  constructor
  · intro h
    have hne : a.visual_res ≠ 1 := by omega
    simp only [get_rays, linspace, if_neg hne, List.map_map]
    apply List.map_congr_left
    intro i _
    simp only [Function.comp_apply]
    ring
  · intro h
    simp only [get_rays, linspace, h, if_pos]
    simp [sub_eq_add_neg]

/-- Witness for C3: concrete instances of both conjuncts of `C3_ray_fan`. -/
theorem C3_ray_fan_witness :
    (get_rays (idArena 1 3 (0, 0) 0) = (List.range 3).map fun i : ℕ =>
      (0 : ℝ) - 1 + (i : ℝ) * (2 * 1) / ((3 : ℝ) - 1)) ∧
    get_rays (idArena 2 1 (0, 0) 0) = [(0 : ℝ) - 2] :=
  ⟨(C3_ray_fan (idArena 1 3 (0, 0) 0)).1 (by decide),
   (C3_ray_fan (idArena 2 1 (0, 0) 0)).2 rfl⟩

/-! ### C4: orientation normalization -/

/-- C4: setting the orientation always succeeds (`set_phi` is total), the
stored orientation lies in `[0, 2π)` and is congruent to the requested angle
modulo `2π`; in particular `φ = 3π` stores `π` and `φ = -π/2` stores `3π/2`. -/
theorem C4_phi_normalization {Color : Type} (a : Arena Color) (φ : ℝ) :
    (0 ≤ (set_phi a φ).phi ∧ (set_phi a φ).phi < 2 * Real.pi) ∧
    (∃ k : ℤ, (set_phi a φ).phi = φ - 2 * Real.pi * k) ∧
    (set_phi a (3 * Real.pi)).phi = Real.pi ∧
    (set_phi a (-(Real.pi / 2))).phi = 3 * Real.pi / 2 := by
  have hπ : (0 : ℝ) < 2 * Real.pi := by positivity
  have hphi : ∀ ψ : ℝ, (set_phi a ψ).phi = pymod ψ (2 * Real.pi) := by
    intro ψ
    rfl
  refine ⟨⟨?_, ?_⟩, ?_, ?_, ?_⟩
  · rw [hphi]
    exact pymod_nonneg φ _ hπ
  · rw [hphi]
    exact pymod_lt φ _ hπ
  · rw [hphi]
    exact pymod_sub_int φ _
  · rw [hphi]
    have hd : (3 * Real.pi) / (2 * Real.pi) = 3 / 2 := by
      rw [div_eq_div_iff (by positivity) (by norm_num)]
      ring
    have hf : ⌊(3 / 2 : ℝ)⌋ = 1 := by
      rw [Int.floor_eq_iff] <;> norm_num
    rw [pymod, hd, hf]
    push_cast
    ring
  · rw [hphi]
    have hd : (-(Real.pi / 2)) / (2 * Real.pi) = -1 / 4 := by
      rw [div_eq_div_iff (by positivity) (by norm_num : (4 : ℝ) ≠ 0)]
      ring
    have hf : ⌊(-1 / 4 : ℝ)⌋ = -1 := by
      rw [Int.floor_eq_iff] <;> norm_num
    rw [pymod, hd, hf]
    push_cast
    ring

/-! ### C7: the degenerate vertical-ray branch -/

/-- C7: when the ray is numerically vertical (the slope guard fires — in the
real model, `cos r = 0` or `|tan r| > 1e10`), the intersection routine takes
the degenerate branch and returns exactly `(x0, sign(sin r)·√(1 - x0²))`,
never forming the quadratic with the unbounded slope. -/
theorem C7_degenerate_vertical (p : ℝ × ℝ) (r : ℝ)
    (h : Real.cos r = 0 ∨ (1e10 : ℝ) < |Real.tan r|) :
    get_circle_intersection p r =
      (p.1, npSign (Real.sin r) * Real.sqrt (1 - p.1 ^ 2)) := by
  simp only [get_circle_intersection, if_pos h]

/-- Witness for C7: the ray angle `π/2` exactly, agent on the x-axis. -/
theorem C7_degenerate_vertical_witness :
    get_circle_intersection (0, 0) (Real.pi / 2) =
      ((0 : ℝ), npSign (Real.sin (Real.pi / 2)) * Real.sqrt (1 - (0 : ℝ) ^ 2)) :=
  C7_degenerate_vertical (0, 0) (Real.pi / 2) (Or.inl Real.cos_pi_div_two)

/-! ### C2: the position setter -/

/-- C2: the position setter fails (raises, modelled by `none`, so the caller
keeps the untouched prior arena — position, orientation and cached visual
field intact) exactly when `x² + y² > 1`; any point with `x² + y² ≤ 1`,
the boundary included, is accepted, the new position is committed and the
visual field is recomputed by `update_vf` before the setter returns. -/
theorem C2_pos_setter {Color : Type} (a : Arena Color) (p : ℝ × ℝ) :
    (set_pos a p = none ↔ 1 < p.1 ^ 2 + p.2 ^ 2) ∧
    (p.1 ^ 2 + p.2 ^ 2 ≤ 1 →
      set_pos a p = some (update_vf { a with pos := p }) ∧
      (update_vf { a with pos := p }).pos = p) := by
  unfold set_pos
  by_cases h : p.1 ^ 2 + p.2 ^ 2 > 1
  · rw [if_pos h]
    exact ⟨by simp [h], fun hle => absurd h (not_lt.mpr hle)⟩
  · rw [if_neg h]
    exact ⟨by simp [h], fun _ => ⟨rfl, rfl⟩⟩

/-- Witness for C2: the boundary point `(0, 1)` (norm exactly 1) is accepted
and committed. -/
theorem C2_pos_setter_witness :
    set_pos (idArena 1 1 (0, 0) 0) (0, 1) =
      some (update_vf { idArena 1 1 (0, 0) 0 with pos := ((0 : ℝ), 1) }) ∧
    (update_vf { idArena 1 1 (0, 0) 0 with pos := ((0 : ℝ), 1) }).pos =
      ((0 : ℝ), 1) :=
  (C2_pos_setter (idArena 1 1 (0, 0) 0) (0, 1)).2 (by norm_num)

/-! ### C5: the visual-field size invariant -/

theorem update_vf_sizes {Color : Type} (a : Arena Color)
    (h : ∀ l, (a.colorfunc l).length = l.length) :
    vf_sizes_ok (update_vf a) := by
  unfold update_vf vf_sizes_ok
  simp [linspace_length, h]

/-- C5: after construction and after every successful pose mutation, each of
the three visual-field sequences has exactly `visual_resolution` entries,
provided the wall color function returns one color per input angle. -/
theorem C5_vf_sizes {Color : Type} (a : Arena Color)
    (h : ∀ l, (a.colorfunc l).length = l.length) (vb : ℝ) (vr : ℕ)
    (φ : ℝ) (p : ℝ × ℝ) :
    vf_sizes_ok (Arena.init a.colorfunc vb vr) ∧
    vf_sizes_ok (set_phi a φ) ∧
    ∀ b, set_pos a p = some b → vf_sizes_ok b := by
  refine ⟨update_vf_sizes _ h, update_vf_sizes _ h, ?_⟩
  intro b hb
  unfold set_pos at hb
  by_cases hg : p.1 ^ 2 + p.2 ^ 2 > 1
  · rw [if_pos hg] at hb
    cases hb
  · rw [if_neg hg] at hb
    injection hb with hb
    subst hb
    exact update_vf_sizes _ h

/-- Witness for C5: a concrete arena with the identity color function, at
resolution 3, for construction, an orientation set and a position set. -/
theorem C5_vf_sizes_witness :
    vf_sizes_ok (Arena.init (idArena 1 3 (0, 0) 0).colorfunc 1 3) ∧
    vf_sizes_ok (set_phi (idArena 1 3 (0, 0) 0) 2) ∧
    vf_sizes_ok (update_vf { idArena 1 3 (0, 0) 0 with pos := ((0 : ℝ), 0) }) := by
  have h := C5_vf_sizes (idArena 1 3 (0, 0) 0) (fun l => rfl) 1 3 2 (0, 0)
  exact ⟨h.1, h.2.1, h.2.2 _ (by norm_num [set_pos])⟩

/-! ### C8: idempotent recomputation -/

/-- C8: calling the same pose setter twice in succession with the same value
yields the identical arena (hence identical `vf_xy`, `vf_angles`,
`vf_colors`) — recomputation is deterministic and, for a pure color function
(all functions in the model are pure), idempotent. -/
theorem C8_idempotent {Color : Type} (a : Arena Color) (φ : ℝ) (p : ℝ × ℝ) :
    set_phi (set_phi a φ) φ = set_phi a φ ∧
    ∀ b, set_pos a p = some b → set_pos b p = some b := by
  constructor
  · exact update_vf_congr _ _ rfl rfl rfl rfl rfl
  · intro b hb
    unfold set_pos at hb ⊢
    by_cases hg : p.1 ^ 2 + p.2 ^ 2 > 1
    · rw [if_pos hg] at hb
      cases hb
    · rw [if_neg hg] at hb ⊢
      injection hb with hb
      subst hb
      exact congrArg some (update_vf_congr _ _ rfl rfl rfl rfl rfl)

/-- Witness for C8: repeating the position assignment `(1, 0)` (a successful
boundary assignment) returns the very same arena. -/
theorem C8_idempotent_witness :
    set_pos (update_vf { idArena 1 1 (0, 0) 0 with pos := ((1 : ℝ), 0) }) (1, 0) =
      some (update_vf { idArena 1 1 (0, 0) 0 with pos := ((1 : ℝ), 0) }) :=
  (C8_idempotent (idArena 1 1 (0, 0) 0) 0 (1, 0)).2 _ (by norm_num [set_pos])

/-! ### C9: frame of the two pose setters -/

/-- C9: setting the orientation leaves position, breadth, resolution and the
injected color function unchanged; a successful position set likewise leaves
orientation, breadth, resolution and the color function unchanged. -/
theorem C9_setter_frame {Color : Type} (a : Arena Color) (φ : ℝ) (p : ℝ × ℝ) :
    ((set_phi a φ).pos = a.pos ∧
     (set_phi a φ).visual_breadth = a.visual_breadth ∧
     (set_phi a φ).visual_res = a.visual_res ∧
     (set_phi a φ).colorfunc = a.colorfunc) ∧
    ∀ b, set_pos a p = some b →
      b.phi = a.phi ∧ b.visual_breadth = a.visual_breadth ∧
      b.visual_res = a.visual_res ∧ b.colorfunc = a.colorfunc := by
  refine ⟨⟨rfl, rfl, rfl, rfl⟩, ?_⟩
  intro b hb
  unfold set_pos at hb
  by_cases hg : p.1 ^ 2 + p.2 ^ 2 > 1
  · rw [if_pos hg] at hb
    cases hb
  · rw [if_neg hg] at hb
    injection hb with hb
    subst hb
    exact ⟨rfl, rfl, rfl, rfl⟩

/-- Witness for C9: a successful concrete position assignment keeps
orientation, breadth, resolution and color function. -/
theorem C9_setter_frame_witness :
    (update_vf { idArena 1 1 (0, 0) 0 with pos := ((0 : ℝ), 0) }).phi =
      (idArena 1 1 (0, 0) 0).phi ∧
    (update_vf { idArena 1 1 (0, 0) 0 with pos := ((0 : ℝ), 0) }).visual_breadth =
      (idArena 1 1 (0, 0) 0).visual_breadth ∧
    (update_vf { idArena 1 1 (0, 0) 0 with pos := ((0 : ℝ), 0) }).visual_res =
      (idArena 1 1 (0, 0) 0).visual_res ∧
    (update_vf { idArena 1 1 (0, 0) 0 with pos := ((0 : ℝ), 0) }).colorfunc =
      (idArena 1 1 (0, 0) 0).colorfunc :=
  (C9_setter_frame (idArena 1 1 (0, 0) 0) 0 (0, 0)).2 _ (by norm_num [set_pos])

/-! ### Geometry of the ray–circle intersection -/

theorem npSign_of_pos {x : ℝ} (h : 0 < x) : npSign x = 1 := by
  unfold npSign
  rw [if_neg (not_lt.mpr h.le), if_neg (ne_of_gt h)]

theorem npSign_of_neg {x : ℝ} (h : x < 0) : npSign x = -1 := by
  unfold npSign
  rw [if_pos h]

theorem npSign_sq_eq_one {x : ℝ} (h : x ≠ 0) : npSign x ^ 2 = 1 := by
  rcases h.lt_or_lt with hl | hl
  · rw [npSign_of_neg hl]
    norm_num
  · rw [npSign_of_pos hl]
    norm_num

/-- When the vertical guard fires, the intersection is the degenerate value. -/
theorem degenerate_eq (x0 y0 r : ℝ)
    (h : Real.cos r = 0 ∨ (1e10 : ℝ) < |Real.tan r|) :
    get_circle_intersection (x0, y0) r =
      (x0, npSign (Real.sin r) * Real.sqrt (1 - x0 ^ 2)) := by
  unfold get_circle_intersection
  rw [if_pos h]

/-- When the vertical guard does not fire, the intersection is the selected
root of the line–circle quadratic. -/
theorem general_eq (x0 y0 r : ℝ)
    (h : ¬(Real.cos r = 0 ∨ (1e10 : ℝ) < |Real.tan r|)) :
    get_circle_intersection (x0, y0) r =
      ((-(Real.tan r * y0 - Real.tan r ^ 2 * x0) +
          npSign (Real.cos r) *
            Real.sqrt ((Real.tan r * y0 - Real.tan r ^ 2 * x0) ^ 2 -
              (1 + Real.tan r ^ 2) *
                (y0 ^ 2 - 2 * Real.tan r * y0 * x0 +
                  Real.tan r ^ 2 * x0 ^ 2 - 1))) /
        (1 + Real.tan r ^ 2),
       y0 + Real.tan r *
        ((-(Real.tan r * y0 - Real.tan r ^ 2 * x0) +
          npSign (Real.cos r) *
            Real.sqrt ((Real.tan r * y0 - Real.tan r ^ 2 * x0) ^ 2 -
              (1 + Real.tan r ^ 2) *
                (y0 ^ 2 - 2 * Real.tan r * y0 * x0 +
                  Real.tan r ^ 2 * x0 ^ 2 - 1))) /
          (1 + Real.tan r ^ 2) - x0)) := by
  unfold get_circle_intersection
  rw [if_neg h]

/-- If the guard fires then the sine of the ray is nonzero (either the ray is
exactly vertical, or its tangent is huge, hence nonzero). -/
theorem sin_ne_zero_of_guard {r : ℝ}
    (h : Real.cos r = 0 ∨ (1e10 : ℝ) < |Real.tan r|) : Real.sin r ≠ 0 := by
  intro h0
  rcases h with hc | ht
  · have := Real.sin_sq_add_cos_sq r
    rw [h0, hc] at this
    norm_num at this
  · rw [Real.tan_eq_sin_div_cos, h0] at ht
    norm_num at ht

/-- The discriminant of the line–circle quadratic is nonnegative inside the
closed unit disk, and dominates `(x0 + m·y0)²`. -/
theorem disc_ge (x0 y0 m : ℝ) (hin : x0 ^ 2 + y0 ^ 2 ≤ 1) :
    (x0 + m * y0) ^ 2 ≤
      (m * y0 - m ^ 2 * x0) ^ 2 -
        (1 + m ^ 2) * (y0 ^ 2 - 2 * m * y0 * x0 + m ^ 2 * x0 ^ 2 - 1) := by
  nlinarith [sq_nonneg m, sq_nonneg (x0 + m * y0), sq_nonneg (m * x0 - y0)]

/-- The selected root of the line–circle quadratic lies on the unit circle. -/
theorem root_on_circle (x0 y0 m g D X : ℝ) (hg : g ^ 2 = 1)
    (hin : x0 ^ 2 + y0 ^ 2 ≤ 1)
    (hD : D = (m * y0 - m ^ 2 * x0) ^ 2 -
      (1 + m ^ 2) * (y0 ^ 2 - 2 * m * y0 * x0 + m ^ 2 * x0 ^ 2 - 1))
    (hX : X = (-(m * y0 - m ^ 2 * x0) + g * Real.sqrt D) / (1 + m ^ 2)) :
    X ^ 2 + (y0 + m * (X - x0)) ^ 2 = 1 := by
  have hA : (0 : ℝ) < 1 + m ^ 2 := by positivity
  have hDnn : 0 ≤ D := by
    rw [hD]
    have := disc_ge x0 y0 m hin
    nlinarith [sq_nonneg (x0 + m * y0)]
  have hs : Real.sqrt D ^ 2 = D := Real.sq_sqrt hDnn
  have hXA : (1 + m ^ 2) * X = -(m * y0 - m ^ 2 * x0) + g * Real.sqrt D := by
    rw [hX]
    field_simp
  have key : (1 + m ^ 2) * (X ^ 2 + (y0 + m * (X - x0)) ^ 2 - 1) = 0 := by
    calc (1 + m ^ 2) * (X ^ 2 + (y0 + m * (X - x0)) ^ 2 - 1)
        = ((1 + m ^ 2) * X) ^ 2 +
            2 * (m * y0 - m ^ 2 * x0) * ((1 + m ^ 2) * X) +
            (1 + m ^ 2) * (y0 ^ 2 - 2 * m * y0 * x0 + m ^ 2 * x0 ^ 2 - 1) := by
          ring
      _ = (-(m * y0 - m ^ 2 * x0) + g * Real.sqrt D) ^ 2 +
            2 * (m * y0 - m ^ 2 * x0) *
              (-(m * y0 - m ^ 2 * x0) + g * Real.sqrt D) +
            (1 + m ^ 2) * (y0 ^ 2 - 2 * m * y0 * x0 + m ^ 2 * x0 ^ 2 - 1) := by
          rw [hXA]
      _ = g ^ 2 * Real.sqrt D ^ 2 - (m * y0 - m ^ 2 * x0) ^ 2 +
            (1 + m ^ 2) * (y0 ^ 2 - 2 * m * y0 * x0 + m ^ 2 * x0 ^ 2 - 1) := by
          ring
      _ = 0 := by
          rw [hs, hg, one_mul, hD]
          ring
  have hz := mul_eq_zero.mp key
  rcases hz with hz | hz
  · exact absurd hz (ne_of_gt hA)
  · linarith

/-- The sign choice `s = sign(cos r)` selects the root on the forward side of
the agent: `g · (X - x0) ≥ 0`. -/
theorem root_forward_sign (x0 y0 m g D X : ℝ) (hg : g ^ 2 = 1)
    (hin : x0 ^ 2 + y0 ^ 2 ≤ 1)
    (hD : D = (m * y0 - m ^ 2 * x0) ^ 2 -
      (1 + m ^ 2) * (y0 ^ 2 - 2 * m * y0 * x0 + m ^ 2 * x0 ^ 2 - 1))
    (hX : X = (-(m * y0 - m ^ 2 * x0) + g * Real.sqrt D) / (1 + m ^ 2)) :
    0 ≤ g * (X - x0) := by
  have hA : (0 : ℝ) < 1 + m ^ 2 := by positivity
  have hu : (x0 + m * y0) ^ 2 ≤ D := by
    rw [hD]
    exact disc_ge x0 y0 m hin
  have hS : |x0 + m * y0| ≤ Real.sqrt D := by
    rw [← Real.sqrt_sq_eq_abs]
    exact Real.sqrt_le_sqrt hu
  have hgu : g * (x0 + m * y0) ≤ |x0 + m * y0| := by
    have hgg : g * g = 1 := by nlinarith [hg]
    rcases mul_self_eq_one_iff.mp hgg with h1 | h1
    · rw [h1, one_mul]
      exact le_abs_self _
    · rw [h1]
      rw [neg_one_mul]
      exact neg_le_abs _
  have hAX : (1 + m ^ 2) * (X - x0) =
      g * Real.sqrt D - (x0 + m * y0) := by
    rw [hX]
    field_simp
    ring
  have hgs : g ^ 2 * Real.sqrt D = Real.sqrt D := by rw [hg, one_mul]
  have hmain : 0 ≤ g * ((1 + m ^ 2) * (X - x0)) := by
    rw [hAX]
    nlinarith [hgs, hS, hgu]
  nlinarith [hmain, hA]

/-- The intersection point returned by `_get_circle_intersection` lies on the
unit circle for every pose in the closed unit disk and every ray angle (both
branches of the routine). -/
theorem intersection_on_circle (x0 y0 r : ℝ) (hin : x0 ^ 2 + y0 ^ 2 ≤ 1) :
    (get_circle_intersection (x0, y0) r).1 ^ 2 +
      (get_circle_intersection (x0, y0) r).2 ^ 2 = 1 := by
  by_cases h : Real.cos r = 0 ∨ (1e10 : ℝ) < |Real.tan r|
  · rw [degenerate_eq x0 y0 r h]
    have hs := npSign_sq_eq_one (sin_ne_zero_of_guard h)
    have hx : x0 ^ 2 ≤ 1 := by nlinarith [sq_nonneg y0]
    have hq : Real.sqrt (1 - x0 ^ 2) ^ 2 = 1 - x0 ^ 2 :=
      Real.sq_sqrt (by linarith)
    show x0 ^ 2 + (npSign (Real.sin r) * Real.sqrt (1 - x0 ^ 2)) ^ 2 = 1
    rw [mul_pow, hs, hq]
    ring
  · rw [general_eq x0 y0 r h]
    push_neg at h
    exact root_on_circle x0 y0 (Real.tan r) (npSign (Real.cos r)) _ _
      (npSign_sq_eq_one h.1) hin rfl rfl

/-! ### C1: the ray–circle intersection contract -/

/-- C1 counterexample: at the interior position `(0, 1/2)` and the ray angle
`arctan 10¹¹` (whose tangent exceeds the `1e10` guard while its cosine is
positive), the routine takes the degenerate branch and returns `(0, 1)`,
which is **not** on the forward ray from `(0, 1/2)`: no `t ≥ 0` maps the ray
direction onto the returned displacement. -/
theorem C1_counterexample :
    ((0 : ℝ) ^ 2 + (1 / 2 : ℝ) ^ 2 < 1) ∧
    ∀ t : ℝ, ¬(0 ≤ t ∧
      (get_circle_intersection (0, 1 / 2) (Real.arctan 1e11)).1 - 0 =
        t * Real.cos (Real.arctan 1e11) ∧
      (get_circle_intersection (0, 1 / 2) (Real.arctan 1e11)).2 - 1 / 2 =
        t * Real.sin (Real.arctan 1e11)) := by
  constructor
  · norm_num
  · have hg : Real.cos (Real.arctan 1e11) = 0 ∨
        (1e10 : ℝ) < |Real.tan (Real.arctan 1e11)| := by
      right
      rw [Real.tan_arctan]
      rw [abs_of_pos (by norm_num : (0 : ℝ) < 1e11)]
      norm_num
    have hq := degenerate_eq 0 (1 / 2) (Real.arctan 1e11) hg
    have hcos : 0 < Real.cos (Real.arctan 1e11) := Real.cos_arctan_pos 1e11
    have hsin : 0 < Real.sin (Real.arctan 1e11) := by
      rw [Real.sin_arctan]
      positivity
    rintro t ⟨ht, h1, h2⟩
    rw [hq] at h1 h2
    simp only at h1 h2
    have ht0 : t = 0 := by
      have : t * Real.cos (Real.arctan 1e11) = 0 := by
        rw [← h1]
        ring
      rcases mul_eq_zero.mp this with h | h
      · exact h
      · exact absurd h (ne_of_gt hcos)
    rw [ht0, zero_mul] at h2
    rw [npSign_of_pos hsin] at h2
    rw [show (1 : ℝ) - 0 ^ 2 = 1 by ring, Real.sqrt_one] at h2
    norm_num at h2

/-- C1 (amended): for every position strictly inside the unit disk and every
ray angle, the returned point lies exactly on the unit circle; it lies on the
forward ray (`(x - x0, y - y0) = t·(cos r, sin r)` with `t ≥ 0`) whenever the
ray is exactly vertical (`cos r = 0`) or the slope is within the guard
(`|tan r| ≤ 1e10`) — i.e. except in the near-vertical regime, where the
degenerate branch snaps the x-coordinate to `x0` and the result leaves the
ray (see the counterexample). -/
theorem C1_intersection (x0 y0 r : ℝ) (hin : x0 ^ 2 + y0 ^ 2 < 1) :
    ((get_circle_intersection (x0, y0) r).1 ^ 2 +
      (get_circle_intersection (x0, y0) r).2 ^ 2 = 1) ∧
    ((Real.cos r = 0 ∨ |Real.tan r| ≤ (1e10 : ℝ)) →
      ∃ t : ℝ, 0 ≤ t ∧
        (get_circle_intersection (x0, y0) r).1 - x0 = t * Real.cos r ∧
        (get_circle_intersection (x0, y0) r).2 - y0 = t * Real.sin r) := by
  refine ⟨intersection_on_circle x0 y0 r (le_of_lt hin), ?_⟩
  intro hf
  by_cases hc : Real.cos r = 0
  · have hguard : Real.cos r = 0 ∨ (1e10 : ℝ) < |Real.tan r| := Or.inl hc
    rw [degenerate_eq x0 y0 r hguard]
    have hs2 : Real.sin r ^ 2 = 1 := by
      have := Real.sin_sq_add_cos_sq r
      rw [hc] at this
      nlinarith [this]
    have hs1 : Real.sin r = 1 ∨ Real.sin r = -1 :=
      mul_self_eq_one_iff.mp (by nlinarith [hs2])
    have hnps : npSign (Real.sin r) = Real.sin r := by
      rcases hs1 with h | h <;> rw [h]
      · exact npSign_of_pos (by norm_num)
      · exact npSign_of_neg (by norm_num)
    have hy2 : y0 ^ 2 ≤ 1 - x0 ^ 2 := by nlinarith
    have habs : |y0| ≤ Real.sqrt (1 - x0 ^ 2) := by
      rw [← Real.sqrt_sq_eq_abs]
      exact Real.sqrt_le_sqrt hy2
    have hsy : Real.sin r * y0 ≤ |y0| := by
      rcases hs1 with h | h <;> rw [h]
      · rw [one_mul]
        exact le_abs_self _
      · rw [neg_one_mul]
        exact neg_le_abs _
    refine ⟨Real.sqrt (1 - x0 ^ 2) - Real.sin r * y0, by linarith, ?_, ?_⟩
    · show x0 - x0 = _ * Real.cos r
      rw [hc]
      ring
    · show npSign (Real.sin r) * Real.sqrt (1 - x0 ^ 2) - y0 = _ * Real.sin r
      rw [hnps]
      linear_combination y0 * hs2
  · have hle : |Real.tan r| ≤ (1e10 : ℝ) := hf.resolve_left hc
    have hguard : ¬(Real.cos r = 0 ∨ (1e10 : ℝ) < |Real.tan r|) := by
      rintro (h | h)
      · exact hc h
      · exact absurd h (not_lt.mpr hle)
    rw [general_eq x0 y0 r hguard]
    have hsgn : npSign (Real.cos r) ^ 2 = 1 := npSign_sq_eq_one hc
    have hfwd := root_forward_sign x0 y0 (Real.tan r) (npSign (Real.cos r))
      _ _ hsgn (le_of_lt hin) rfl rfl
    set X := (-(Real.tan r * y0 - Real.tan r ^ 2 * x0) +
        npSign (Real.cos r) *
          Real.sqrt ((Real.tan r * y0 - Real.tan r ^ 2 * x0) ^ 2 -
            (1 + Real.tan r ^ 2) *
              (y0 ^ 2 - 2 * Real.tan r * y0 * x0 +
                Real.tan r ^ 2 * x0 ^ 2 - 1))) /
      (1 + Real.tan r ^ 2) with hXdef
    refine ⟨(X - x0) / Real.cos r, ?_, ?_, ?_⟩
    · rcases lt_trichotomy (Real.cos r) 0 with hl | hl | hl
      · rw [npSign_of_neg hl] at hfwd
        rw [div_nonneg_iff]
        right
        constructor
        · nlinarith [hfwd]
        · exact le_of_lt hl
      · exact absurd hl hc
      · rw [npSign_of_pos hl] at hfwd
        rw [div_nonneg_iff]
        left
        constructor
        · nlinarith [hfwd]
        · exact le_of_lt hl
    · show X - x0 = (X - x0) / Real.cos r * Real.cos r
      rw [div_mul_cancel₀ _ hc]
    · show y0 + Real.tan r * (X - x0) - y0 = (X - x0) / Real.cos r * Real.sin r
      rw [Real.tan_eq_sin_div_cos]
      field_simp
      ring

/-- Witness for C1 (amended): the origin with the horizontal ray `r = 0`. -/
theorem C1_intersection_witness :
    ((get_circle_intersection (0, 0) 0).1 ^ 2 +
      (get_circle_intersection (0, 0) 0).2 ^ 2 = 1) ∧
    (∃ t : ℝ, 0 ≤ t ∧
      (get_circle_intersection (0, 0) 0).1 - 0 = t * Real.cos 0 ∧
      (get_circle_intersection (0, 0) 0).2 - 0 = t * Real.sin 0) :=
  ⟨(C1_intersection 0 0 0 (by norm_num)).1,
   (C1_intersection 0 0 0 (by norm_num)).2
     (Or.inr (by rw [Real.tan_zero]; norm_num))⟩

/-! ### C10: zero x-coordinates in the wall-angle computation -/

/-- C10 counterexample: the valid pose `(0, 0)` with orientation `π/2`
(breadth 0, resolution 1) produces the intersection `(0, 1)`, whose
x-coordinate is zero — the divisor in `arctan(y/x)` does vanish. -/
theorem C10_counterexample :
    ((0 : ℝ) ^ 2 + (0 : ℝ) ^ 2 ≤ 1) ∧
    (update_vf (idArena 0 1 (0, 0) (Real.pi / 2))).vf_xy = [((0 : ℝ), 1)] := by
  refine ⟨by norm_num, ?_⟩
  have hray : Real.pi / 2 + -(0 : ℝ) = Real.pi / 2 := by ring
  have hq : get_circle_intersection (0, 0) (Real.pi / 2) = ((0 : ℝ), 1) := by
    rw [degenerate_eq 0 0 (Real.pi / 2) (Or.inl Real.cos_pi_div_two)]
    rw [Real.sin_pi_div_two, npSign_of_pos (by norm_num : (0 : ℝ) < 1)]
    norm_num
  show ((linspace (-(0 : ℝ)) 0 1).map fun t => Real.pi / 2 + t).map
      (get_circle_intersection (0, 0)) = [((0 : ℝ), 1)]
  rw [show linspace (-(0 : ℝ)) 0 1 = [-(0 : ℝ)] from rfl]
  simp only [List.map_cons, List.map_nil, hray]
  rw [hq]

/-- C10 (amended): the x-coordinate of a computed intersection can be zero
even for a valid pose (see the counterexample), but only at the poles of the
circle: for every pose in the closed unit disk and every ray angle, an
intersection with `x = 0` has `y² = 1`, so the division in `arctan(y/x)` has
a zero divisor exactly when the ray lands on `(0, ±1)`. -/
theorem C10_zero_x (x0 y0 r : ℝ) (hin : x0 ^ 2 + y0 ^ 2 ≤ 1)
    (hx : (get_circle_intersection (x0, y0) r).1 = 0) :
    (get_circle_intersection (x0, y0) r).2 ^ 2 = 1 := by
  have h := intersection_on_circle x0 y0 r hin
  rw [hx] at h
  nlinarith [h]

/-- Witness for C10 (amended): the pose and ray of the counterexample. -/
theorem C10_zero_x_witness :
    (get_circle_intersection (0, 0) (Real.pi / 2)).2 ^ 2 = 1 := by
  have hx : (get_circle_intersection ((0 : ℝ), (0 : ℝ)) (Real.pi / 2)).1 = 0 := by
    rw [degenerate_eq 0 0 (Real.pi / 2) (Or.inl Real.cos_pi_div_two)]
  exact C10_zero_x 0 0 (Real.pi / 2) (by norm_num) hx

/-! ### C6: the concrete three-ray scenario -/

/-- C6: for the arena constructed at position `(0,0)`, orientation `0`,
`visual_breadth = π/4` and `visual_resolution = 3`, the ray fan is
`[-π/4, 0, π/4]`, the intersections are
`[(cos(-π/4), sin(-π/4)), (1,0), (cos(π/4), sin(π/4))]` in ray order, the
stored wall-angle sequence is the per-ray wall-angle sequence reversed and
reduced modulo `2π` into `[0, 2π)` — concretely `[π/4, 0, 7π/4]` — and that
sequence is passed in one batch to the color function to produce the
3-element color sequence. -/
theorem C6_concrete_scenario {Color : Type} (cf : List ℝ → List Color) :
    get_rays (Arena.init cf (Real.pi / 4) 3) =
      [-(Real.pi / 4), 0, Real.pi / 4] ∧
    (Arena.init cf (Real.pi / 4) 3).vf_xy =
      [(Real.cos (-(Real.pi / 4)), Real.sin (-(Real.pi / 4))),
       ((1 : ℝ), (0 : ℝ)),
       (Real.cos (Real.pi / 4), Real.sin (Real.pi / 4))] ∧
    (Arena.init cf (Real.pi / 4) 3).vf_angles =
      (((Arena.init cf (Real.pi / 4) 3).vf_xy.map wall_angle).reverse).map
        (fun t => pymod t (2 * Real.pi)) ∧
    (Arena.init cf (Real.pi / 4) 3).vf_angles =
      [Real.pi / 4, 0, 7 * Real.pi / 4] ∧
    (Arena.init cf (Real.pi / 4) 3).vf_colors =
      cf [Real.pi / 4, 0, 7 * Real.pi / 4] := by
  have hsq2 : (0 : ℝ) < Real.sqrt 2 / 2 := by positivity
  have hlin : linspace (-(Real.pi / 4)) (Real.pi / 4) 3 =
      [-(Real.pi / 4), 0, Real.pi / 4] := by
    unfold linspace
    rw [if_neg (by norm_num : (3 : ℕ) ≠ 1)]
    rw [show List.range 3 = [0, 1, 2] from rfl]
    simp only [List.map_cons, List.map_nil, List.cons.injEq, and_true,
      Nat.cast_zero, Nat.cast_one, Nat.cast_ofNat]
    norm_num
  have hrays : get_rays (Arena.init cf (Real.pi / 4) 3) =
      [-(Real.pi / 4), 0, Real.pi / 4] := by
    show (linspace (-(Real.pi / 4)) (Real.pi / 4) 3).map
      (fun t => (0 : ℝ) + t) = _
    rw [hlin]
    simp
  have hgne : ¬(Real.cos (-(Real.pi / 4)) = 0 ∨
      (1e10 : ℝ) < |Real.tan (-(Real.pi / 4))|) := by
    rw [Real.cos_neg, Real.cos_pi_div_four, Real.tan_neg, Real.tan_pi_div_four]
    push_neg
    refine ⟨ne_of_gt hsq2, ?_⟩
    rw [abs_neg, abs_one]
    norm_num
  have hg0 : ¬(Real.cos 0 = 0 ∨ (1e10 : ℝ) < |Real.tan 0|) := by
    rw [Real.cos_zero, Real.tan_zero]
    push_neg
    norm_num
  have hgp : ¬(Real.cos (Real.pi / 4) = 0 ∨
      (1e10 : ℝ) < |Real.tan (Real.pi / 4)|) := by
    rw [Real.cos_pi_div_four, Real.tan_pi_div_four]
    push_neg
    refine ⟨ne_of_gt hsq2, ?_⟩
    rw [abs_one]
    norm_num
  have hq1 : get_circle_intersection (0, 0) (-(Real.pi / 4)) =
      (Real.cos (-(Real.pi / 4)), Real.sin (-(Real.pi / 4))) := by
    rw [general_eq 0 0 _ hgne]
    rw [Real.tan_neg, Real.tan_pi_div_four, Real.cos_neg, Real.cos_pi_div_four,
      Real.sin_neg, Real.sin_pi_div_four]
    rw [npSign_of_pos hsq2]
    norm_num
  have hq2 : get_circle_intersection (0, 0) 0 = ((1 : ℝ), (0 : ℝ)) := by
    rw [general_eq 0 0 _ hg0]
    rw [Real.tan_zero, Real.cos_zero]
    rw [npSign_of_pos (by norm_num : (0 : ℝ) < 1)]
    norm_num
  have hq3 : get_circle_intersection (0, 0) (Real.pi / 4) =
      (Real.cos (Real.pi / 4), Real.sin (Real.pi / 4)) := by
    rw [general_eq 0 0 _ hgp]
    rw [Real.tan_pi_div_four, Real.cos_pi_div_four, Real.sin_pi_div_four]
    rw [npSign_of_pos hsq2]
    norm_num
  have hxy : (Arena.init cf (Real.pi / 4) 3).vf_xy =
      [(Real.cos (-(Real.pi / 4)), Real.sin (-(Real.pi / 4))),
       ((1 : ℝ), (0 : ℝ)),
       (Real.cos (Real.pi / 4), Real.sin (Real.pi / 4))] := by
    show ((linspace (-(Real.pi / 4)) (Real.pi / 4) 3).map
        (fun t => (0 : ℝ) + t)).map (get_circle_intersection (0, 0)) = _
    rw [hlin]
    simp only [List.map_cons, List.map_nil, zero_add]
    rw [hq1, hq2, hq3]
  have hstruct : (Arena.init cf (Real.pi / 4) 3).vf_angles =
      (((Arena.init cf (Real.pi / 4) 3).vf_xy.map wall_angle).reverse).map
        (fun t => pymod t (2 * Real.pi)) := rfl
  have hw1 : wall_angle (Real.cos (-(Real.pi / 4)), Real.sin (-(Real.pi / 4))) =
      -(Real.pi / 4) := by
    unfold wall_angle
    rw [Real.cos_neg, Real.sin_neg, Real.cos_pi_div_four, Real.sin_pi_div_four]
    simp only
    rw [if_neg (not_lt.mpr hsq2.le)]
    rw [neg_div, div_self (ne_of_gt hsq2), Real.arctan_neg, Real.arctan_one]
    ring
  have hw2 : wall_angle ((1 : ℝ), (0 : ℝ)) = 0 := by
    unfold wall_angle
    simp only
    rw [if_neg (by norm_num : ¬((1 : ℝ) < 0))]
    rw [zero_div, Real.arctan_zero]
    ring
  have hw3 : wall_angle (Real.cos (Real.pi / 4), Real.sin (Real.pi / 4)) =
      Real.pi / 4 := by
    unfold wall_angle
    rw [Real.cos_pi_div_four, Real.sin_pi_div_four]
    simp only
    rw [if_neg (not_lt.mpr hsq2.le)]
    rw [div_self (ne_of_gt hsq2), Real.arctan_one]
    ring
  have hm1 : pymod (Real.pi / 4) (2 * Real.pi) = Real.pi / 4 := by
    unfold pymod
    have hd : (Real.pi / 4) / (2 * Real.pi) = 1 / 8 := by
      rw [div_eq_div_iff (by positivity) (by norm_num : (8 : ℝ) ≠ 0)]
      ring
    rw [hd, show ⌊(1 / 8 : ℝ)⌋ = 0 from by rw [Int.floor_eq_iff] <;> norm_num]
    push_cast
    ring
  have hm2 : pymod 0 (2 * Real.pi) = 0 := by
    unfold pymod
    rw [zero_div, Int.floor_zero]
    push_cast
    ring
  have hm3 : pymod (-(Real.pi / 4)) (2 * Real.pi) = 7 * Real.pi / 4 := by
    unfold pymod
    have hd : (-(Real.pi / 4)) / (2 * Real.pi) = -1 / 8 := by
      rw [div_eq_div_iff (by positivity) (by norm_num : (8 : ℝ) ≠ 0)]
      ring
    rw [hd, show ⌊(-1 / 8 : ℝ)⌋ = -1 from by rw [Int.floor_eq_iff] <;> norm_num]
    push_cast
    ring
  have hang : (Arena.init cf (Real.pi / 4) 3).vf_angles =
      [Real.pi / 4, 0, 7 * Real.pi / 4] := by
    rw [hstruct, hxy]
    simp only [List.map_cons, List.map_nil, List.reverse_cons, List.reverse_nil,
      List.nil_append, List.cons_append, List.singleton_append]
    rw [hw1, hw2, hw3, hm1, hm2, hm3]
  have hcol : (Arena.init cf (Real.pi / 4) 3).vf_colors =
      cf ((Arena.init cf (Real.pi / 4) 3).vf_angles) := rfl
  refine ⟨hrays, hxy, hstruct, hang, ?_⟩
  rw [hcol, hang]

end

end VisionArena
